import Mathlib

/-!
# Verification of the `ServerExt` command-construction and sequencing layer

Shallow embedding of `src/client/server/utils.rs` from the `irc` crate: the
`ServerExt` trait methods that build protocol `Command` values and hand them,
in order, to the transport's `send`.

Modelling conventions:
* Rust strings are modelled as `List Char` (`Str`).  All data handled by this
  layer is ASCII, so Rust's byte-based `len`/`truncate` coincide with the
  character-based `List.length`/`List.take` used here.
* The transport (`Server::send`) is modelled by a function from the call
  index to an optional error: `sendErr i = none` means the `i`-th `send`
  call on the connection succeeds.  A `SessionState` records how many `send`
  calls have been made and which commands were successfully handed over,
  in order.  Each `ServerExt` method becomes a state transformer
  `SendM := SessionState → SessionState × Option IrcError`,
  sequencing with `?`-style short-circuiting (`seqSend`).
-/

set_option autoImplicit false

namespace IrcSpec

/-- Rust `&str` / `String`, as a list of characters (ASCII throughout). -/
abbrev Str := List Char

/-- Characters of a string literal, for writing `Str` constants. -/
def chars (s : String) : Str := s.data

/-- The `CAP` subcommands used in `utils.rs` (`proto::command::CapSubCommand`). -/
inductive CapSubCommand
  | LS
  | END
  | REQ
deriving DecidableEq

/-- Modelled from the spec: the `Capability` enum lives in `proto`, which is
not under `src/`.  The spec names the tokens `multi-prefix` and
`userhost-in-names`, each "rendered as its canonical textual name"
(`as_ref`). -/
inductive Capability
  | MultiPrefix
  | UserhostInNames
deriving DecidableEq

/-- Modelled from the spec: canonical textual name of a capability token. -/
def Capability.asRef : Capability → Str
  | Capability.MultiPrefix => chars "multi-prefix"
  | Capability.UserhostInNames => chars "userhost-in-names"

/-- The subset of `proto::Command` variants used by the verified operations.
Field layouts follow the call sites in `utils.rs` and the spec's wire table
(`proto` itself is not under `src/`). -/
inductive Command
  | CAP (arg : Option Str) (sub : CapSubCommand) (param : Option Str) (text : Option Str)
  | PASS (password : Str)
  | NICK (nickname : Str)
  | USER (user : Str) (mode : Str) (realname : Str)
  | PRIVMSG (target : Str) (msg : Str)
  | NOTICE (target : Str) (msg : Str)
  | TOPIC (channel : Str) (topic : Option Str)
  | KICK (chanlist : Str) (nicklist : Str) (comment : Option Str)
  | SAMODE (target : Str) (mode : Str) (modeparams : Option Str)
  | QUIT (msg : Option Str)
deriving DecidableEq

/-- The failure taxonomy of this layer (spec §7): a missing nickname during
identify-sequencing, or a transport failure propagated unchanged.  The `code`
payload distinguishes distinct transport errors. -/
inductive IrcError
  | ConfigMissing
  | Transport (code : Nat)
deriving DecidableEq

/-- Modelled from the spec: session identity fields of `Config` (`client::data`,
not under `src/`) — "nickname (optional until required), username, real name,
password (optional/empty-string-as-absent)".  `nickname` is `none` when no
nickname is configured, in which case the accessor used by `identify` fails
with `ConfigMissing`. -/
structure Config where
  nickname : Option Str
  username : Str
  realname : Str
  password : Str

/-- A server handle: read-only `Config` plus the transport behaviour, giving
the outcome of the `i`-th `send` call (`none` = success). -/
structure Server where
  config : Config
  sendErr : Nat → Option IrcError

/-- Transport-visible session state: number of `send` calls made so far and
the commands successfully handed to the transport, in order. -/
structure SessionState where
  count : Nat
  sent : List Command
deriving DecidableEq

/-- The initial session state: no `send` call has been made. -/
def st0 : SessionState := ⟨0, []⟩

/-- A `ServerExt` method body: transforms the session state and may stop with
an error (Rust `Result<()>` + the sequence of `send` side effects). -/
abbrev SendM := SessionState → SessionState × Option IrcError

/-- Rust `Ok(())` with no send. -/
def pureOk : SendM := fun st => (st, none)

/-- One call to the transport's `send`: the command counts against the call
index; on success it is appended to the `sent` log, on failure the transport
error is returned. -/
def sendCmd (srv : Server) (c : Command) : SendM := fun st =>
  match srv.sendErr st.count with
  | none => ({ count := st.count + 1, sent := st.sent ++ [c] }, none)
  | some e => ({ count := st.count + 1, sent := st.sent }, some e)

/-- Rust `?`-sequencing: run `a`; on error stop and propagate it unchanged,
otherwise run `b`. -/
def seqSend (a b : SendM) : SendM := fun st =>
  match a st with
  | (st', none) => b st'
  | (st', some e) => (st', some e)

/-- Send a list of commands in order, short-circuiting on the first failure
(the `for` loop with `?` in `send_privmsg`/`send_notice`). -/
def sendAll (srv : Server) : List Command → SendM
  | [] => pureOk
  | c :: rest => seqSend (sendCmd srv c) (sendAll srv rest)

/-- `ServerExt::send_cap_req` (utils.rs:70–86): folds the capabilities into a
string appending `as_ref` plus one space for each, then removes the final byte
via `let len = exts.len() - 1; exts.truncate(len)` and sends
`CAP (None, REQ, None, Some exts)`.

The subtraction is Rust `usize` arithmetic: on the empty capability list
`exts.len()` is `0` and `0 - 1` underflows — a panic in debug builds; in
release builds it wraps to `usize::MAX = 2^64 - 1`, `truncate` with a length
at least the current one is a no-op, and a `CAP REQ` with an empty payload is
sent.  The wrapping (release) semantics is embedded here. -/
def send_cap_req (srv : Server) (extensions : List Capability) : SendM :=
  let exts : Str := extensions.foldl (fun s c => s ++ Capability.asRef c ++ [' ']) []
  let len : Nat := if exts.length = 0 then 2 ^ 64 - 1 else exts.length - 1
  sendCmd srv (Command.CAP none CapSubCommand.REQ none (some (List.take len exts)))

/-- `ServerExt::identify` (utils.rs:89–105): `CAP END`; then `PASS` only if
the configured password is non-empty; then `NICK` (the nickname accessor
fails with `ConfigMissing` when no nickname is configured); then
`USER username "0" realname`. -/
def identify (srv : Server) : SendM :=
  seqSend (sendCmd srv (Command.CAP none CapSubCommand.END none none))
    (seqSend
      (if srv.config.password = [] then pureOk
       else sendCmd srv (Command.PASS srv.config.password))
      (seqSend
        (match srv.config.nickname with
         | none => fun st => (st, some IrcError.ConfigMissing)
         | some n => sendCmd srv (Command.NICK n))
        (sendCmd srv
          (Command.USER srv.config.username (chars "0") srv.config.realname))))

/-- Prepend a character to the first segment of a split result (helper for
`splitCRLF`). -/
def consHead (c : Char) : List Str → List Str
  | [] => [[c]]
  | s :: ss => (c :: s) :: ss

/-- Rust `str::split("\r\n")`: leftmost, non-overlapping matches of the
two-character sequence; always returns at least one (possibly empty)
segment. -/
def splitCRLF : Str → List Str
  | [] => [[]]
  | [c] => [[c]]
  | c₁ :: c₂ :: rest =>
    if c₁ = '\r' ∧ c₂ = '\n' then [] :: splitCRLF rest
    else consHead c₁ (splitCRLF (c₂ :: rest))

/-- Number of (leftmost, non-overlapping) occurrences of `"\r\n"`; since the
two characters differ, occurrences can never overlap, so this is the plain
occurrence count. -/
def countCRLF : Str → Nat
  | [] => 0
  | [_] => 0
  | c₁ :: c₂ :: rest =>
    if c₁ = '\r' ∧ c₂ = '\n' then countCRLF rest + 1
    else countCRLF (c₂ :: rest)

/-- `ServerExt::send_privmsg` (utils.rs:181–189): one `PRIVMSG` per
`"\r\n"`-separated segment, sent in order, stopping at the first failure. -/
def send_privmsg (srv : Server) (target message : Str) : SendM :=
  sendAll srv ((splitCRLF message).map (fun line => Command.PRIVMSG target line))

/-- `ServerExt::send_notice` (utils.rs:192–200): one `NOTICE` per
`"\r\n"`-separated segment, sent in order, stopping at the first failure. -/
def send_notice (srv : Server) (target message : Str) : SendM :=
  sendAll srv ((splitCRLF message).map (fun line => Command.NOTICE target line))

/-- `ServerExt::send_topic` (utils.rs:204–216): empty topic text encodes the
optional field as absent. -/
def send_topic (srv : Server) (channel topic : Str) : SendM :=
  sendCmd srv
    (Command.TOPIC channel (if topic.isEmpty then none else some topic))

/-- `ServerExt::send_kick` (utils.rs:228–241): empty comment encodes the
optional field as absent. -/
def send_kick (srv : Server) (chanlist nicklist message : Str) : SendM :=
  sendCmd srv
    (Command.KICK chanlist nicklist
      (if message.isEmpty then none else some message))

/-- `ServerExt::send_samode` (utils.rs:254–267): empty modeparams encodes the
optional field as absent. -/
def send_samode (srv : Server) (target mode modeparams : Str) : SendM :=
  sendCmd srv
    (Command.SAMODE target mode
      (if modeparams.isEmpty then none else some modeparams))

/-- `ServerExt::send_quit` (utils.rs:287–296): an empty farewell message is
replaced by the fixed default `"Powered by Rust."`. -/
def send_quit (srv : Server) (msg : Str) : SendM :=
  sendCmd srv
    (Command.QUIT (some (if msg.isEmpty then chars "Powered by Rust." else msg)))

/-- `ServerExt::send_ctcp` (utils.rs:300–306): wraps the payload between two
`\u{001}` delimiters and delegates to `send_privmsg`. -/
def send_ctcp (srv : Server) (target msg : Str) : SendM :=
  send_privmsg srv target (['\x01'] ++ msg ++ ['\x01'])

/-- A server whose transport never fails. -/
def okSrv (cfg : Config) : Server := ⟨cfg, fun _ => none⟩

/-- A server whose `j`-th `send` call fails with `e` and all others
succeed. -/
def failSrv (cfg : Config) (j : Nat) (e : IrcError) : Server :=
  ⟨cfg, fun i => if i = j then some e else none⟩

/-- Strings joined by exactly one space, with no leading or trailing
separator (the spec's description of the `CAP REQ` payload; compared against
the payload the source builds by fold-and-truncate). -/
def joinSpace : List Str → Str
  | [] => []
  | [s] => s
  | s :: t :: rest => s ++ ' ' :: joinSpace (t :: rest)

/-- A concrete configuration with a nickname and a non-empty password, for
witness instances. -/
def cfgA : Config :=
  { nickname := some (chars "n"), username := chars "u",
    realname := chars "r", password := chars "p" }

/-- A concrete configuration with no nickname configured, for witness
instances. -/
def cfgB : Config :=
  { nickname := none, username := chars "u",
    realname := chars "r", password := chars "p" }

/-! ## Helper lemmas -/

theorem consHead_ne_nil (c : Char) (l : List Str) : consHead c l ≠ [] := by
  cases l <;> simp [consHead]

theorem consHead_length (c : Char) (l : List Str) (h : l ≠ []) :
    (consHead c l).length = l.length := by
  cases l with
  | nil => exact absurd rfl h
  | cons s ss => simp [consHead]

theorem splitCRLF_ne_nil (s : Str) : splitCRLF s ≠ [] := by
  match s with
  | [] => simp [splitCRLF]
  | [c] => simp [splitCRLF]
  | c₁ :: c₂ :: rest =>
    simp only [splitCRLF]
    split
    · simp
    · exact consHead_ne_nil _ _

theorem splitCRLF_length : ∀ (s : Str), (splitCRLF s).length = countCRLF s + 1
  | [] => by simp [splitCRLF, countCRLF]
  | [c] => by simp [splitCRLF, countCRLF]
  | c₁ :: c₂ :: rest => by
    by_cases h : c₁ = '\r' ∧ c₂ = '\n'
    · simp [splitCRLF, countCRLF, h, splitCRLF_length rest]
    · have ih := splitCRLF_length (c₂ :: rest)
      have hne := splitCRLF_ne_nil (c₂ :: rest)
      simp only [splitCRLF, countCRLF, if_neg h]
      rw [consHead_length _ _ hne, ih]

theorem splitCRLF_of_countCRLF_zero :
    ∀ (s : Str), countCRLF s = 0 → splitCRLF s = [s]
  | [], _ => by simp [splitCRLF]
  | [c], _ => by simp [splitCRLF]
  | c₁ :: c₂ :: rest, h => by
    by_cases hc : c₁ = '\r' ∧ c₂ = '\n'
    · simp [countCRLF, hc] at h
    · simp only [countCRLF, if_neg hc] at h
      have ih := splitCRLF_of_countCRLF_zero (c₂ :: rest) h
      simp [splitCRLF, if_neg hc, ih, consHead]

theorem countCRLF_cons_ne (c : Char) (hc : ¬ c = '\r') :
    ∀ (s : Str), countCRLF (c :: s) = countCRLF s
  | [] => by simp [countCRLF]
  | a :: rest => by
    have hna : ¬ (c = '\r' ∧ a = '\n') := fun h => hc h.1
    simp [countCRLF, hna]

theorem countCRLF_append_last (c : Char) (hc : ¬ c = '\n') :
    ∀ (s : Str), countCRLF (s ++ [c]) = countCRLF s
  | [] => by simp [countCRLF]
  | [a] => by
    have hna : ¬ (a = '\r' ∧ c = '\n') := fun h => hc h.2
    simp [countCRLF, hna]
  | a :: b :: rest => by
    have ih1 := countCRLF_append_last c hc rest
    have ih2 := countCRLF_append_last c hc (b :: rest)
    simp only [List.cons_append] at ih2 ⊢
    by_cases h : a = '\r' ∧ b = '\n' <;>
      simp [countCRLF, h, ih1, ih2]

theorem sendAll_ok (cfg : Config) :
    ∀ (cmds : List Command) (st : SessionState),
      sendAll (okSrv cfg) cmds st
        = ({ count := st.count + cmds.length, sent := st.sent ++ cmds }, none)
  | [], st => by simp [sendAll, pureOk]
  | c :: rest, st => by
    have ih := sendAll_ok cfg rest { count := st.count + 1, sent := st.sent ++ [c] }
    simp only [sendAll, seqSend, sendCmd, okSrv] at ih ⊢
    rw [ih]
    simp only [Prod.mk.injEq, SessionState.mk.injEq, List.length_cons]
    refine ⟨⟨by omega, by simp⟩, trivial⟩

theorem sendAll_failAt (cfg : Config) (j : Nat) (e : IrcError) :
    ∀ (cmds : List Command) (st : SessionState),
      st.count ≤ j → j < st.count + cmds.length →
      sendAll (failSrv cfg j e) cmds st
        = ({ count := j + 1, sent := st.sent ++ cmds.take (j - st.count) }, some e)
  | [], st, hle, hlt => by simp only [List.length_nil] at hlt; omega
  | c :: rest, st, hle, hlt => by
    simp only [List.length_cons] at hlt
    by_cases hj : st.count = j
    · simp [sendAll, seqSend, sendCmd, failSrv, hj, Nat.sub_self]
    · have hlt' : st.count < j := lt_of_le_of_ne hle hj
      have ih := sendAll_failAt cfg j e rest
        { count := st.count + 1, sent := st.sent ++ [c] }
        (by simpa using hlt') (by simp only [List.length_cons]; omega)
      simp only [sendAll, seqSend, sendCmd, failSrv, if_neg hj]
      simp only [failSrv] at ih
      rw [ih]
      have htake : j - st.count = (j - (st.count + 1)) + 1 := by omega
      simp [htake, List.take_succ_cons]

theorem foldCap_shift (l : List Capability) :
    ∀ (a : Str),
      l.foldl (fun s c => s ++ Capability.asRef c ++ [' ']) a
        = a ++ l.foldl (fun s c => s ++ Capability.asRef c ++ [' ']) [] := by
  induction l with
  | nil => intro a; simp
  | cons c rest ih =>
    intro a
    simp only [List.foldl_cons]
    rw [ih (a ++ Capability.asRef c ++ [' ']),
      ih (([] : Str) ++ Capability.asRef c ++ [' '])]
    simp

theorem foldCap_eq_joinSpace :
    ∀ (l : List Capability), l ≠ [] →
      l.foldl (fun s c => s ++ Capability.asRef c ++ [' ']) []
        = joinSpace (l.map Capability.asRef) ++ [' ']
  | [c], _ => by simp [joinSpace]
  | c :: d :: rest, _ => by
    have ih := foldCap_eq_joinSpace (d :: rest) (by simp)
    rw [show c :: d :: rest = [c] ++ d :: rest from rfl, List.foldl_append,
      foldCap_shift, ih]
    simp [joinSpace]

theorem asRef_ne_nil (c : Capability) : Capability.asRef c ≠ [] := by
  cases c <;> decide

theorem asRef_head_ne_space (c : Capability) :
    (Capability.asRef c).head? ≠ some ' ' := by
  cases c <;> decide

theorem asRef_getLast_ne_space (c : Capability) :
    (Capability.asRef c).getLast? ≠ some ' ' := by
  cases c <;> decide

theorem joinSpace_head? :
    ∀ (s : Str) (l : List Str), s ≠ [] → (joinSpace (s :: l)).head? = s.head?
  | s, [], _ => rfl
  | s, t :: rest, hs => by
    cases s with
    | nil => exact absurd rfl hs
    | cons a as => simp [joinSpace]

theorem joinSpace_ne_nil :
    ∀ (l : List Str), l ≠ [] → (∀ s ∈ l, s ≠ []) → joinSpace l ≠ []
  | [s], _, hall => hall s (by simp)
  | s :: t :: rest, _, hall => by
    simp [joinSpace]

theorem joinSpace_getLast_mem :
    ∀ (l : List Str), l ≠ [] → (∀ s ∈ l, s ≠ []) →
      ∃ s ∈ l, (joinSpace l).getLast? = s.getLast?
  | [s], _, _ => ⟨s, by simp [joinSpace]⟩
  | s :: t :: rest, _, hall => by
    have hall' : ∀ x ∈ t :: rest, x ≠ [] :=
      fun x hx => hall x (List.mem_cons_of_mem s hx)
    obtain ⟨w, hw, hlast⟩ := joinSpace_getLast_mem (t :: rest) (by simp) hall'
    have hne : joinSpace (t :: rest) ≠ [] :=
      joinSpace_ne_nil (t :: rest) (by simp) hall'
    refine ⟨w, List.mem_cons_of_mem s hw, ?_⟩
    simp only [joinSpace]
    rw [List.getLast?_append_cons]
    have hsp : (' ' :: joinSpace (t :: rest)) = [' '] ++ joinSpace (t :: rest) := rfl
    rw [hsp, List.getLast?_append_of_ne_nil [' '] hne, hlast]

theorem identify_eval_some (cfg : Config) (n : Str) (hn : cfg.nickname = some n) :
    identify (okSrv cfg) st0
      = ({ count := if cfg.password = [] then 3 else 4,
           sent := Command.CAP none CapSubCommand.END none none ::
             ((if cfg.password = [] then [] else [Command.PASS cfg.password]) ++
              [Command.NICK n,
               Command.USER cfg.username (chars "0") cfg.realname]) },
         none) := by
  by_cases hp : cfg.password = [] <;>
    simp [identify, seqSend, sendCmd, pureOk, okSrv, st0, hn, hp]

theorem identify_eval_none (cfg : Config) (hn : cfg.nickname = none) :
    identify (okSrv cfg) st0
      = ({ count := if cfg.password = [] then 1 else 2,
           sent := Command.CAP none CapSubCommand.END none none ::
             (if cfg.password = [] then [] else [Command.PASS cfg.password]) },
         some IrcError.ConfigMissing) := by
  by_cases hp : cfg.password = [] <;>
    simp [identify, seqSend, sendCmd, pureOk, okSrv, st0, hn, hp]

/-! ## Claim theorems -/

/-- C1: for every `Config` with a configured nickname, `identify` emits, in
exactly this order: a `CAP END`; then, if and only if the configured password
is non-empty, a `PASS` carrying that password; then a `NICK` carrying the
nickname; then a `USER` carrying username, the fixed field `"0"` and the real
name.  With an empty password, no `PASS` command is ever emitted. -/
theorem identify_command_order (cfg : Config) (n : Str)
    (hn : cfg.nickname = some n) :
    (identify (okSrv cfg) st0).2 = none
  ∧ (identify (okSrv cfg) st0).1.sent
      = [Command.CAP none CapSubCommand.END none none]
        ++ (if cfg.password = [] then [] else [Command.PASS cfg.password])
        ++ [Command.NICK n,
            Command.USER cfg.username (chars "0") cfg.realname]
  ∧ (cfg.password = [] →
      ∀ p, Command.PASS p ∉ (identify (okSrv cfg) st0).1.sent) := by
  have h := identify_eval_some cfg n hn
  refine ⟨by rw [h], ?_, ?_⟩
  · rw [h]
    by_cases hp : cfg.password = [] <;> simp [hp]
  · intro hp p
    rw [h]
    simp [hp]

/-- C1 witness: the order theorem instantiated at the concrete configuration
`cfgA` (nickname `n`, non-empty password `p`). -/
theorem identify_command_order_witness :
    cfgA.nickname = some (chars "n")
  ∧ ((identify (okSrv cfgA) st0).2 = none
  ∧ (identify (okSrv cfgA) st0).1.sent
      = [Command.CAP none CapSubCommand.END none none]
        ++ (if cfgA.password = [] then [] else [Command.PASS cfgA.password])
        ++ [Command.NICK (chars "n"),
            Command.USER cfgA.username (chars "0") cfgA.realname]
  ∧ (cfgA.password = [] →
      ∀ p, Command.PASS p ∉ (identify (okSrv cfgA) st0).1.sent)) :=
  ⟨rfl, identify_command_order cfgA (chars "n") rfl⟩

/-- C3 (the claimed guard is absent from the code): called with the empty
capability list, `send_cap_req` computes `exts.len() - 1`, which underflows —
a panic in debug builds, while under release (wrapping) semantics `truncate`
is a no-op and a `CAP REQ` carrying an empty payload is built and sent. -/
theorem send_cap_req_empty_sends (cfg : Config) :
    (send_cap_req (okSrv cfg) [] st0).1.sent
      = [Command.CAP none CapSubCommand.REQ none (some [])]
  ∧ (send_cap_req (okSrv cfg) [] st0).2 = none := by
  constructor <;> simp [send_cap_req, sendCmd, okSrv, st0]

/-- C6: in `send_topic`, `send_kick` and `send_samode` the optional trailing
field (topic text, kick comment, SAMODE parameters) is encoded as absent if
and only if the caller-supplied string is empty; a non-empty string is carried
verbatim. -/
theorem optional_trailing_field (cfg : Config)
    (channel topic chanlist nicklist comment target mode params : Str) :
    (send_topic (okSrv cfg) channel topic st0).1.sent
      = [Command.TOPIC channel (if topic = [] then none else some topic)]
  ∧ (send_kick (okSrv cfg) chanlist nicklist comment st0).1.sent
      = [Command.KICK chanlist nicklist
          (if comment = [] then none else some comment)]
  ∧ (send_samode (okSrv cfg) target mode params st0).1.sent
      = [Command.SAMODE target mode
          (if params = [] then none else some params)] := by
  refine ⟨?_, ?_, ?_⟩ <;>
    simp [send_topic, send_kick, send_samode, sendCmd, okSrv, st0]

/-- C8: `identify` on a `Config` with no nickname configured fails with
`ConfigMissing` at the nickname step, and the `USER` registration command
(the step after the nickname step) is never sent. -/
theorem identify_missing_nickname (cfg : Config) (hn : cfg.nickname = none) :
    (identify (okSrv cfg) st0).2 = some IrcError.ConfigMissing
  ∧ ∀ u m r, Command.USER u m r ∉ (identify (okSrv cfg) st0).1.sent := by
  have h := identify_eval_none cfg hn
  refine ⟨by rw [h], ?_⟩
  intro u m r
  rw [h]
  by_cases hp : cfg.password = [] <;> simp [hp]

/-- C8 witness: the missing-nickname theorem instantiated at the concrete
configuration `cfgB` (no nickname). -/
theorem identify_missing_nickname_witness :
    cfgB.nickname = none
  ∧ ((identify (okSrv cfgB) st0).2 = some IrcError.ConfigMissing
  ∧ ∀ u m r, Command.USER u m r ∉ (identify (okSrv cfgB) st0).1.sent) :=
  ⟨rfl, identify_missing_nickname cfgB rfl⟩

/-- C9: `send_quit` always sends a `QUIT` that carries a message: the caller's
string when non-empty, otherwise the fixed default `"Powered by Rust."`; a
`QUIT` with no message is never sent. -/
theorem send_quit_message (cfg : Config) (msg : Str) :
    (send_quit (okSrv cfg) msg st0).1.sent
      = [Command.QUIT
          (some (if msg = [] then chars "Powered by Rust." else msg))]
  ∧ (send_quit (okSrv cfg) msg st0).2 = none := by
  constructor <;> simp [send_quit, sendCmd, okSrv, st0]

/-- C10: `identify` is not atomic on failure: when it reports `ConfigMissing`
because no nickname is configured, the `CAP END` command — and, exactly when
the configured password is non-empty, the `PASS` command — have already been
handed to the transport's send. -/
theorem identify_not_atomic (cfg : Config) (hn : cfg.nickname = none) :
    (identify (okSrv cfg) st0).2 = some IrcError.ConfigMissing
  ∧ (identify (okSrv cfg) st0).1.sent
      = Command.CAP none CapSubCommand.END none none ::
        (if cfg.password = [] then [] else [Command.PASS cfg.password]) := by
  have h := identify_eval_none cfg hn
  exact ⟨by rw [h], by rw [h]⟩

/-- C10 witness: the non-atomicity theorem instantiated at the concrete
configuration `cfgB` (no nickname, non-empty password). -/
theorem identify_not_atomic_witness :
    cfgB.nickname = none
  ∧ ((identify (okSrv cfgB) st0).2 = some IrcError.ConfigMissing
  ∧ (identify (okSrv cfgB) st0).1.sent
      = Command.CAP none CapSubCommand.END none none ::
        (if cfgB.password = [] then [] else [Command.PASS cfgB.password])) :=
  ⟨rfl, identify_not_atomic cfgB rfl⟩

/-- C2: for every non-empty capability list, `send_cap_req` sends a single
`CAP REQ` whose payload is the capabilities' canonical names joined by a
single space, in the caller-supplied order, with no leading or trailing
space. -/
theorem send_cap_req_payload (cfg : Config) (extensions : List Capability)
    (hne : extensions ≠ []) :
    (send_cap_req (okSrv cfg) extensions st0).1.sent
      = [Command.CAP none CapSubCommand.REQ none
          (some (joinSpace (extensions.map Capability.asRef)))]
  ∧ (send_cap_req (okSrv cfg) extensions st0).2 = none
  ∧ (joinSpace (extensions.map Capability.asRef)).head? ≠ some ' '
  ∧ (joinSpace (extensions.map Capability.asRef)).getLast? ≠ some ' ' := by
  have hfold := foldCap_eq_joinSpace extensions hne
  have hmapne : extensions.map Capability.asRef ≠ [] := by
    cases extensions with
    | nil => exact absurd rfl hne
    | cons e es => simp
  have hmem : ∀ s ∈ extensions.map Capability.asRef, s ≠ [] := by
    intro s hs
    obtain ⟨c, _, rfl⟩ := List.mem_map.1 hs
    exact asRef_ne_nil c
  have hhead : (joinSpace (extensions.map Capability.asRef)).head? ≠ some ' ' := by
    cases extensions with
    | nil => exact absurd rfl hne
    | cons e es =>
      rw [List.map_cons, joinSpace_head? _ _ (asRef_ne_nil e)]
      exact asRef_head_ne_space e
  have hlast : (joinSpace (extensions.map Capability.asRef)).getLast? ≠ some ' ' := by
    obtain ⟨s, hs, heq⟩ := joinSpace_getLast_mem _ hmapne hmem
    rw [heq]
    obtain ⟨c, _, rfl⟩ := List.mem_map.1 hs
    exact asRef_getLast_ne_space c
  have hrun : send_cap_req (okSrv cfg) extensions st0
      = ({ count := 1,
           sent := [Command.CAP none CapSubCommand.REQ none
             (some (joinSpace (extensions.map Capability.asRef)))] }, none) := by
    simp only [send_cap_req, hfold]
    rw [if_neg (by simp)]
    have h2 : (joinSpace (extensions.map Capability.asRef) ++ [' ']).length - 1
        = (joinSpace (extensions.map Capability.asRef)).length := by simp
    rw [h2, List.take_left' rfl]
    simp [sendCmd, okSrv, st0]
  exact ⟨by rw [hrun], by rw [hrun], hhead, hlast⟩

/-- C2 witness: the payload theorem instantiated at the capability list
`[MultiPrefix, UserhostInNames]`, whose joined payload is
`"multi-prefix userhost-in-names"`. -/
theorem send_cap_req_payload_witness :
    ([Capability.MultiPrefix, Capability.UserhostInNames] : List Capability) ≠ []
  ∧ ((send_cap_req (okSrv cfgA)
        [Capability.MultiPrefix, Capability.UserhostInNames] st0).1.sent
      = [Command.CAP none CapSubCommand.REQ none
          (some (joinSpace
            ([Capability.MultiPrefix,
              Capability.UserhostInNames].map Capability.asRef)))]
  ∧ (send_cap_req (okSrv cfgA)
        [Capability.MultiPrefix, Capability.UserhostInNames] st0).2 = none
  ∧ (joinSpace ([Capability.MultiPrefix,
        Capability.UserhostInNames].map Capability.asRef)).head? ≠ some ' '
  ∧ (joinSpace ([Capability.MultiPrefix,
        Capability.UserhostInNames].map Capability.asRef)).getLast?
      ≠ some ' ') :=
  ⟨by simp,
   send_cap_req_payload cfgA
     [Capability.MultiPrefix, Capability.UserhostInNames] (by simp)⟩

/-- C4: `send_privmsg` and `send_notice` split the message body strictly on
the two-character sequence `"\r\n"` — never on a lone `'\n'` or `'\r'` — and
issue exactly `countCRLF message + 1` send calls (`k` occurrences give `k+1`
calls), one per segment in original order, all to the same target and all
with the same verb. -/
theorem send_msg_splits (cfg : Config) (target message : Str) :
    (send_privmsg (okSrv cfg) target message st0).2 = none
  ∧ (send_privmsg (okSrv cfg) target message st0).1.sent
      = (splitCRLF message).map (fun line => Command.PRIVMSG target line)
  ∧ (send_privmsg (okSrv cfg) target message st0).1.count
      = countCRLF message + 1
  ∧ (send_notice (okSrv cfg) target message st0).2 = none
  ∧ (send_notice (okSrv cfg) target message st0).1.sent
      = (splitCRLF message).map (fun line => Command.NOTICE target line)
  ∧ (send_notice (okSrv cfg) target message st0).1.count
      = countCRLF message + 1
  ∧ splitCRLF (chars "a\nb") = [chars "a\nb"]
  ∧ splitCRLF (chars "a\rb") = [chars "a\rb"] := by
  have hp := sendAll_ok cfg
    ((splitCRLF message).map (fun line => Command.PRIVMSG target line))
    { count := 0, sent := [] }
  have hn := sendAll_ok cfg
    ((splitCRLF message).map (fun line => Command.NOTICE target line))
    { count := 0, sent := [] }
  refine ⟨?_, ?_, ?_, ?_, ?_, ?_, by decide, by decide⟩
  · simp [send_privmsg, hp, st0]
  · simp [send_privmsg, hp, st0]
  · simp [send_privmsg, hp, st0, splitCRLF_length]
  · simp [send_notice, hn, st0]
  · simp [send_notice, hn, st0]
  · simp [send_notice, hn, st0, splitCRLF_length]

/-- C5: when the transport send of segment `j` fails in
`send_privmsg`/`send_notice`, the error is returned unchanged, the segments
before `j` have already been sent, and no further send call is made (the
failing call is the last one, so exactly `j + 1` calls occur). -/
theorem send_msg_failfast (cfg : Config) (e : IrcError) (target message : Str)
    (j : Nat) (hj : j < (splitCRLF message).length) :
    (send_privmsg (failSrv cfg j e) target message st0).2 = some e
  ∧ (send_privmsg (failSrv cfg j e) target message st0).1.sent
      = ((splitCRLF message).take j).map
          (fun line => Command.PRIVMSG target line)
  ∧ (send_privmsg (failSrv cfg j e) target message st0).1.count = j + 1
  ∧ (send_notice (failSrv cfg j e) target message st0).2 = some e
  ∧ (send_notice (failSrv cfg j e) target message st0).1.sent
      = ((splitCRLF message).take j).map
          (fun line => Command.NOTICE target line)
  ∧ (send_notice (failSrv cfg j e) target message st0).1.count = j + 1 := by
  have hp := sendAll_failAt cfg j e
    ((splitCRLF message).map (fun line => Command.PRIVMSG target line))
    { count := 0, sent := [] } (by simp) (by simpa using hj)
  have hn := sendAll_failAt cfg j e
    ((splitCRLF message).map (fun line => Command.NOTICE target line))
    { count := 0, sent := [] } (by simp) (by simpa using hj)
  refine ⟨?_, ?_, ?_, ?_, ?_, ?_⟩
  · simp [send_privmsg, hp, st0]
  · simp [send_privmsg, hp, st0]
  · simp [send_privmsg, hp, st0]
  · simp [send_notice, hn, st0]
  · simp [send_notice, hn, st0]
  · simp [send_notice, hn, st0]

/-- C5 witness: the fail-fast theorem instantiated with the three-segment
message `"a\r\nb\r\nc"` and a transport failure on the second send call. -/
theorem send_msg_failfast_witness :
    1 < (splitCRLF (chars "a\r\nb\r\nc")).length
  ∧ ((send_privmsg (failSrv cfgA 1 (IrcError.Transport 7)) (chars "#t")
        (chars "a\r\nb\r\nc") st0).2 = some (IrcError.Transport 7)
  ∧ (send_privmsg (failSrv cfgA 1 (IrcError.Transport 7)) (chars "#t")
        (chars "a\r\nb\r\nc") st0).1.sent
      = ((splitCRLF (chars "a\r\nb\r\nc")).take 1).map
          (fun line => Command.PRIVMSG (chars "#t") line)
  ∧ (send_privmsg (failSrv cfgA 1 (IrcError.Transport 7)) (chars "#t")
        (chars "a\r\nb\r\nc") st0).1.count = 1 + 1
  ∧ (send_notice (failSrv cfgA 1 (IrcError.Transport 7)) (chars "#t")
        (chars "a\r\nb\r\nc") st0).2 = some (IrcError.Transport 7)
  ∧ (send_notice (failSrv cfgA 1 (IrcError.Transport 7)) (chars "#t")
        (chars "a\r\nb\r\nc") st0).1.sent
      = ((splitCRLF (chars "a\r\nb\r\nc")).take 1).map
          (fun line => Command.NOTICE (chars "#t") line)
  ∧ (send_notice (failSrv cfgA 1 (IrcError.Transport 7)) (chars "#t")
        (chars "a\r\nb\r\nc") st0).1.count = 1 + 1) :=
  ⟨by decide,
   send_msg_failfast cfgA (IrcError.Transport 7) (chars "#t")
     (chars "a\r\nb\r\nc") 1 (by decide)⟩

/-- C7 counterexample: for the payload `"a\r\nb"`, which contains the
line-break sequence, `send_ctcp` does not produce message text consisting of
the payload wrapped in one pair of `\x01` delimiters: the delegated
`send_privmsg` splits the wrapped text on `"\r\n"`, two `PRIVMSG`s are sent,
and the first one's text `"\x01a"` is not of the wrapped form at all. -/
theorem send_ctcp_crlf_counterexample :
    (send_ctcp (okSrv cfgA) (chars "t") (chars "a\r\nb") st0).1.sent
      = [Command.PRIVMSG (chars "t") (chars "\x01a"),
         Command.PRIVMSG (chars "t") (chars "b\x01")]
  ∧ ¬ (∃ p : Str, chars "\x01a" = '\x01' :: (p ++ ['\x01'])) := by
  constructor
  · decide
  · rintro ⟨p, hp⟩
    rcases p with _ | ⟨x, xs⟩ <;> simp [chars] at hp

/-- C7 amended: `send_ctcp` hands to the message splitter exactly the payload
wrapped in one pair of `\x01` delimiters — one leading and one trailing, never
nested or repeated — so for every payload that does not contain the
line-break sequence `"\r\n"` (including payloads containing `\x01`), exactly
one `PRIVMSG` is sent and its text is the wrapped payload.  (Payloads
containing `"\r\n"` are split by the delegated `send_privmsg`, so only the
first segment carries the leading and only the last the trailing
delimiter.) -/
theorem send_ctcp_wraps (cfg : Config) (target msg : Str)
    (h : countCRLF msg = 0) :
    (send_ctcp (okSrv cfg) target msg st0).1.sent
      = [Command.PRIVMSG target ('\x01' :: (msg ++ ['\x01']))]
  ∧ (send_ctcp (okSrv cfg) target msg st0).2 = none := by
  have hw : countCRLF ('\x01' :: (msg ++ ['\x01'])) = 0 := by
    rw [countCRLF_cons_ne '\x01' (by decide),
      countCRLF_append_last '\x01' (by decide), h]
  have hsplit := splitCRLF_of_countCRLF_zero _ hw
  have hrun := sendAll_ok cfg
    [Command.PRIVMSG target ('\x01' :: (msg ++ ['\x01']))]
    { count := 0, sent := [] }
  constructor
  · simp [send_ctcp, send_privmsg, hsplit, hrun, st0]
  · simp [send_ctcp, send_privmsg, hsplit, hrun, st0]

/-- C7 amended witness: the wrapping theorem instantiated with the payload
`"a\x01b"`, which itself contains the delimiter but no line break. -/
theorem send_ctcp_wraps_witness :
    countCRLF (chars "a\x01b") = 0
  ∧ ((send_ctcp (okSrv cfgB) (chars "t") (chars "a\x01b") st0).1.sent
      = [Command.PRIVMSG (chars "t")
          ('\x01' :: (chars "a\x01b" ++ ['\x01']))]
  ∧ (send_ctcp (okSrv cfgB) (chars "t") (chars "a\x01b") st0).2 = none) :=
  ⟨by decide, send_ctcp_wraps cfgB (chars "t") (chars "a\x01b") (by decide)⟩

end IrcSpec
